import Mathlib

set_option maxRecDepth 40000

/-!
Verification of the voxel-grid exploration engine (ASCII raycaster).

The definitions below are a shallow embedding of the C sources:
vector.c, world.c, raycaster.c, player.c, and the game loop in main.c.

Modelling conventions:
* C `float`/`double` arithmetic is idealised as exact rational arithmetic
  over `ℚ`; float literals such as `0.7f` are read as the rationals they
  denote in the source text (`7/10`).
* Machine integers are `ℤ`/`ℕ`; `uint8_t` storage is reflected by explicit
  `% 256` where a value is stored into a byte.
* The world's dense `uint8_t***` grid is embedded as a total function
  `ℤ → ℤ → ℤ → ℕ` indexed in the source's `blocks[z][y][x]` order; all
  accesses in the source go through the bounds-checked accessors, which are
  embedded faithfully.
* File I/O (`fwrite`/`fread`) is embedded at the granularity the source
  reads and writes: a file is a list of items (a 4-byte int, one byte, or a
  4-byte float), and a read fails exactly when the next item is missing or
  of the wrong kind, mirroring the source's checks of each `fread` result.
* The `while` loop of the DDA raycaster is embedded with an explicit fuel
  parameter bounding the number of iterations; the loop body is translated
  verbatim.
-/

namespace VoxelExplorer

/-! ### Constants from config.h -/

def MAX_BLOCK_TYPES : ℕ := 16

def BLOCK_AIR : ℕ := 0

def BLOCK_WATER : ℕ := 6

def FOG_START : ℚ := 10

def FOG_END : ℚ := 15

/-! ### Vector operations (vector.c) -/

structure Vec3 where
  x : ℚ
  y : ℚ
  z : ℚ
deriving DecidableEq, Repr

def vec3_add (a b : Vec3) : Vec3 :=
  ⟨a.x + b.x, a.y + b.y, a.z + b.z⟩

def vec3_mul (a : Vec3) (s : ℚ) : Vec3 :=
  ⟨a.x * s, a.y * s, a.z * s⟩

/-! ### World data model (world.h / world.c)

The `World` struct holds dimensions, the block grid, the block-type table
and two lighting scalars.  Every constructor in the source (`world_create`,
`world_load`) installs a copy of the one static `default_block_types`
table with `num_block_types = MAX_BLOCK_TYPES`, so the table is embedded
as the fixed function `default_block_solid` below rather than as a field.
-/

structure World where
  width : ℤ
  height : ℤ
  depth : ℤ
  blocks : ℤ → ℤ → ℤ → ℕ
  time_of_day : ℚ
  sky_brightness : ℚ

/-- Solidity column of the static `default_block_types` table in world.c:
air 0, dirt 1, grass 2, stone 3, wood 4, leaves 5, water 6, sand 7,
brick 8; entries 9..15 of the 16-entry table are zero-initialised and
hence non-solid. -/
def default_block_solid : ℕ → Bool
  | 1 | 2 | 3 | 4 | 5 | 7 | 8 => true
  | _ => false

/-- world.c `world_is_valid_position`. -/
def world_is_valid_position (w : World) (x y z : ℤ) : Bool :=
  decide (0 ≤ x ∧ x < w.width ∧ 0 ≤ y ∧ y < w.height ∧ 0 ≤ z ∧ z < w.depth)

/-- world.c `world_get_block`: air for any invalid position. -/
def world_get_block (w : World) (x y z : ℤ) : ℕ :=
  if world_is_valid_position w x y z then w.blocks z y x else BLOCK_AIR

/-- world.c `world_set_block`: no-op for any invalid position; the stored
value is the `uint8_t` image of the argument. -/
def world_set_block (w : World) (x y z : ℤ) (ty : ℕ) : World :=
  if world_is_valid_position w x y z then
    { w with blocks := fun z' y' x' =>
        if z' = z ∧ y' = y ∧ x' = x then ty % 256 else w.blocks z' y' x' }
  else w

/-- world.c `world_is_solid`: false for any invalid position or any id at
or beyond `num_block_types`. -/
def world_is_solid (w : World) (x y z : ℤ) : Bool :=
  if world_is_valid_position w x y z then
    if MAX_BLOCK_TYPES ≤ w.blocks z y x then false
    else default_block_solid (w.blocks z y x)
  else false

/-- Modelled from the spec: `clamp` is declared in utils.h but utils.c is
not among the sources; the spec describes its uses as clamping a value
into a closed interval, e.g. brightness "clamped to [0.2, 1.0]". -/
def clamp (value lo hi : ℚ) : ℚ :=
  if value < lo then lo else if hi < value then hi else value

/-- world.c `world_get_brightness`: 0 for an invalid position; otherwise
the sky brightness is multiplied by 0.7 for every cell strictly above the
queried cell whose block is neither air nor water, and the result is
clamped to [0.2, 1.0].  The source's upward `for` loop over
`check_z = z+1 .. depth-1` is embedded as a fold over the same range. -/
def world_get_brightness (w : World) (x y z : ℤ) : ℚ :=
  if world_is_valid_position w x y z then
    clamp
      ((List.range (w.depth - (z + 1)).toNat).foldl
        (fun br (i : ℕ) =>
          if world_is_valid_position w x y (z + 1 + (i : ℤ)) then
            if w.blocks (z + 1 + (i : ℤ)) y x ≠ BLOCK_AIR ∧
                w.blocks (z + 1 + (i : ℤ)) y x ≠ BLOCK_WATER then
              br * (7/10)
            else br
          else br)
        w.sky_brightness)
      (1/5) 1
  else 0

/-- Specification-side count for claim C5: the number of cells strictly
above (x,y,z), up to the grid ceiling, whose block id is neither air nor
water. -/
def occlusion_count (w : World) (x y z : ℤ) : ℕ :=
  ((List.range (w.depth - (z + 1)).toNat).filter
    (fun (i : ℕ) =>
      decide (w.blocks (z + 1 + (i : ℤ)) y x ≠ BLOCK_AIR ∧
        w.blocks (z + 1 + (i : ℤ)) y x ≠ BLOCK_WATER))).length

/-! ### Raycaster (raycaster.c) -/

/-- The three coordinate axes of the DDA traversal. -/
inductive Axis
  | x
  | y
  | z
deriving DecidableEq, Repr

/-- The axis-selection conditional at the top of the DDA loop body of
`cast_ray`: X when `t_max_x` is strictly below both others, else Y when
`t_max_y` is strictly below `t_max_z`, else Z. -/
def chooseAxis (tmx tmy tmz : ℚ) : Axis :=
  if tmx < tmy ∧ tmx < tmz then Axis.x
  else if tmy < tmz then Axis.y
  else Axis.z

/-- The `t_max` component belonging to an axis. -/
def axisT (a : Axis) (tmx tmy tmz : ℚ) : ℚ :=
  match a with
  | Axis.x => tmx
  | Axis.y => tmy
  | Axis.z => tmz

/-- The axis a face index 0..5 belongs to (faces 0,1 are X faces, 2,3 are
Y faces, 4,5 are Z faces). -/
def faceAxis (f : ℕ) : Axis :=
  if f < 2 then Axis.x else if f < 4 then Axis.y else Axis.z

/-- Mutable per-iteration state of the DDA loop: the three `t_max` values
and the current cell `map_x, map_y, map_z`. -/
structure DDAState where
  tmx : ℚ
  tmy : ℚ
  tmz : ℚ
  mx : ℤ
  my : ℤ
  mz : ℤ
deriving DecidableEq, Repr

/-- One iteration of the DDA loop body of `cast_ray` up to the bounds
check: select the axis, advance its `t_max` by its `t_delta` and its cell
coordinate by its step, and compute the crossed face index.  Returns the
new state, the new accumulated distance, and the face. -/
def ddaStep (sx sy sz : ℤ) (tdx tdy tdz : ℚ) (st : DDAState) :
    DDAState × ℚ × ℕ :=
  match chooseAxis st.tmx st.tmy st.tmz with
  | Axis.x =>
      ({ st with tmx := st.tmx + tdx, mx := st.mx + sx }, st.tmx,
        if 0 < sx then 1 else 0)
  | Axis.y =>
      ({ st with tmy := st.tmy + tdy, my := st.my + sy }, st.tmy,
        if 0 < sy then 3 else 2)
  | Axis.z =>
      ({ st with tmz := st.tmz + tdz, mz := st.mz + sz }, st.tmz,
        if 0 < sz then 5 else 4)

/-- The static `face_normals` table of raycaster.c. -/
def face_normals : ℕ → Vec3
  | 0 => ⟨1, 0, 0⟩
  | 1 => ⟨-1, 0, 0⟩
  | 2 => ⟨0, 1, 0⟩
  | 3 => ⟨0, -1, 0⟩
  | 4 => ⟨0, 0, 1⟩
  | 5 => ⟨0, 0, -1⟩
  | _ => ⟨0, 0, 0⟩

/-- The static `face_brightness` table of raycaster.c. -/
def face_brightness : ℕ → ℚ
  | 0 => 4/5
  | 1 => 3/5
  | 2 => 1
  | 3 => 1/5
  | 4 => 9/10
  | 5 => 7/10
  | _ => 0

/-- The `RayHit` result record of raycaster.h. -/
structure RayHit where
  hit : Bool
  block_type : ℕ
  distance : ℚ
  position : Vec3
  normal : Vec3
  face : ℕ
  brightness : ℚ
deriving DecidableEq, Repr

/-- The zero-initialised result of `cast_ray` with `distance` preset to
the max distance, as returned on every miss. -/
def missRayHit (max_distance : ℚ) : RayHit :=
  ⟨false, 0, max_distance, ⟨0, 0, 0⟩, ⟨0, 0, 0⟩, 0, 0⟩

/-- The `1e30f` sentinel used for the `t` values of a zero direction
component. -/
def t_infinity : ℚ := 10 ^ 30

/-- Per-axis setup of `cast_ray`: step sign, `t_delta` and initial
`t_max` from one direction component, one position component and the
floored cell coordinate. -/
def axis_setup (dirc posc : ℚ) (mapc : ℤ) : ℤ × ℚ × ℚ :=
  if dirc = 0 then (0, t_infinity, t_infinity)
  else if 0 < dirc then (1, 1 / dirc, (1 / dirc) * (((mapc + 1 : ℤ) : ℚ) - posc))
  else (-1, 1 / (-dirc), (1 / (-dirc)) * (posc - (mapc : ℚ)))

/-- The DDA `while (distance < max_distance)` loop of `cast_ray`,
embedded with a fuel bound on the iteration count.  Each iteration steps
one axis, terminates with the zero-initialised miss result if the new
cell is out of bounds, returns a hit record if the new cell is not air,
and otherwise continues.  `ENABLE_FOG` is 1 in config.h, so the fog
attenuation is always applied to the hit brightness. -/
def cast_ray_loop (w : World) (ray_pos ray_dir : Vec3) (max_distance : ℚ)
    (sx sy sz : ℤ) (tdx tdy tdz : ℚ) :
    ℕ → ℚ → DDAState → RayHit
  | 0, _, _ => missRayHit max_distance
  | fuel + 1, dist, st =>
    if dist < max_distance then
      let r := ddaStep sx sy sz tdx tdy tdz st
      let st' := r.1
      let dist' := r.2.1
      let face := r.2.2
      if st'.mx < 0 ∨ st'.my < 0 ∨ st'.mz < 0 ∨ w.width ≤ st'.mx ∨
          w.height ≤ st'.my ∨ w.depth ≤ st'.mz then
        missRayHit max_distance
      else
        let bt := world_get_block w st'.mx st'.my st'.mz
        if bt ≠ BLOCK_AIR then
          let b0 := world_get_brightness w st'.mx st'.my st'.mz *
            face_brightness face
          let fog := clamp ((dist' - FOG_START) / (FOG_END - FOG_START)) 0 1
          ⟨true, bt, dist', vec3_add ray_pos (vec3_mul ray_dir dist'),
            face_normals face, face, clamp (b0 * (1 - fog * (4/5))) (1/5) 1⟩
        else
          cast_ray_loop w ray_pos ray_dir max_distance sx sy sz tdx tdy tdz
            fuel dist' st'
    else missRayHit max_distance

/-- raycaster.c `cast_ray`.  The source first normalises `direction` with
`vec3_normalize`, which divides by an irrational square root in general;
the embedding therefore takes the already-normalised ray direction (the
identity for the unit direction vectors all claims use).  `fuel` bounds
the number of loop iterations. -/
def cast_ray (w : World) (position direction : Vec3) (max_distance : ℚ)
    (fuel : ℕ) : RayHit :=
  let ray_pos := position
  let ray_dir := direction
  let mx : ℤ := ⌊ray_pos.x⌋
  let my : ℤ := ⌊ray_pos.y⌋
  let mz : ℤ := ⌊ray_pos.z⌋
  let ax := axis_setup ray_dir.x ray_pos.x mx
  let ay := axis_setup ray_dir.y ray_pos.y my
  let az := axis_setup ray_dir.z ray_pos.z mz
  cast_ray_loop w ray_pos ray_dir max_distance ax.1 ay.1 az.1
    ax.2.1 ay.2.1 az.2.1 fuel 0
    ⟨ax.2.2, ay.2.2, az.2.2, mx, my, mz⟩

/-! ### Player (player.h / player.c) -/

/-- The fields of the `Player` struct of player.h that the claims
concern: continuous position, (pitch, yaw) rotation, the selected
inventory slot (an `int`), and the inventory, a `uint8_t` count per
block-type id. -/
structure Player where
  position : Vec3
  rotation : ℚ × ℚ
  selected_slot : ℤ
  inventory : ℕ → ℕ

/-- The double constant `2.0 * M_PI` used by the yaw wrap of
`player_rotate`: `M_PI` is the IEEE-754 double nearest pi, the rational
884279719003555 / 2^48. -/
def twoPi : ℚ := 884279719003555 / 2 ^ 47

/-- The first wrap loop of `player_rotate`:
`while (rotation.y >= 2.0 * M_PI) rotation.y -= 2.0 * M_PI`. -/
def yawWrapDown (y : ℚ) : ℚ :=
  if h : twoPi ≤ y then yawWrapDown (y - twoPi) else y
termination_by ⌊y / twoPi⌋.toNat
decreasing_by
  have hT : (0 : ℚ) < twoPi := by norm_num [twoPi]
  have h1 : (1 : ℚ) ≤ y / twoPi := (one_le_div hT).mpr h
  have h2 : (1 : ℤ) ≤ ⌊y / twoPi⌋ := Int.le_floor.mpr (by exact_mod_cast h1)
  have h3 : (y - twoPi) / twoPi = y / twoPi - 1 := by
    field_simp
  rw [h3, Int.floor_sub_one]
  omega

/-- The second wrap loop of `player_rotate`:
`while (rotation.y < 0.0) rotation.y += 2.0 * M_PI`. -/
def yawWrapUp (y : ℚ) : ℚ :=
  if h : y < 0 then yawWrapUp (y + twoPi) else y
termination_by ⌈-y / twoPi⌉.toNat
decreasing_by
  have hT : (0 : ℚ) < twoPi := by norm_num [twoPi]
  have h1 : (0 : ℚ) < -y / twoPi := div_pos (by linarith) hT
  have h2 : (1 : ℤ) ≤ ⌈-y / twoPi⌉ := Int.ceil_pos.mpr h1
  have h3 : -(y + twoPi) / twoPi = -y / twoPi - 1 := by
    field_simp
    ring
  rw [h3, Int.ceil_sub_one]
  omega

/-- player.c `player_rotate`: add the deltas, clamp pitch to [-1.5, 1.5]
with two sequential conditionals, and wrap yaw with the two `while`
loops. -/
def player_rotate (p : Player) (pitch yaw : ℚ) : Player :=
  let px0 := p.rotation.1 + pitch
  let py0 := p.rotation.2 + yaw
  let px1 := if 3/2 < px0 then 3/2 else px0
  let px2 := if px1 < -(3/2) then -(3/2) else px1
  { p with rotation := (px2, yawWrapUp (yawWrapDown py0)) }

/-- A finite sequence of `player_rotate` calls. -/
def applyRotations (p : Player) (ds : List (ℚ × ℚ)) : Player :=
  ds.foldl (fun q d => player_rotate q d.1 d.2) p

/-- The rotation invariant of claim C8: pitch in [-1.5, 1.5] and yaw in
[0, 2 pi). -/
def RotationInv (p : Player) : Prop :=
  -(3/2) ≤ p.rotation.1 ∧ p.rotation.1 ≤ 3/2 ∧
    0 ≤ p.rotation.2 ∧ p.rotation.2 < twoPi

/-- `uint8_t` increment: the `inventory[block_type]++` of
`player_break_block`. -/
def u8incr (c : ℕ) : ℕ := (c + 1) % 256

/-- `uint8_t` decrement: the `inventory[block_type]--` of
`player_place_block`. -/
def u8decr (c : ℕ) : ℕ := (c + 255) % 256

/-- `uint8_t` compound addition: the `inventory[block_type] += amount` of
`player_give_block`, an `int` amount added into a byte. -/
def u8add (c : ℕ) (amount : ℤ) : ℕ := (((c : ℤ) + amount) % 256).toNat

/-- player.c `player_give_block`. -/
def player_give_block (p : Player) (block_type : ℕ) (amount : ℤ) : Player :=
  if block_type < MAX_BLOCK_TYPES then
    { p with inventory := fun t =>
        if t = block_type then u8add (p.inventory t) amount else p.inventory t }
  else p

/-- player.c `player_break_block`: cast a 5-unit ray from the player's
position along the view direction; on a hit, floor the hit point to a
cell, add that cell's block id to the inventory (`uint8_t` increment) and
set the cell to air.  The view direction `vec3_from_angles(pitch, yaw)`
involves irrational trigonometry, so the embedding takes the computed
unit view direction as the `dir` argument. -/
def player_break_block (p : Player) (w : World) (dir : Vec3) (fuel : ℕ) :
    Player × World :=
  let hit := cast_ray w p.position dir 5 fuel
  if hit.hit then
    let x := ⌊hit.position.x⌋
    let y := ⌊hit.position.y⌋
    let z := ⌊hit.position.z⌋
    let bt := world_get_block w x y z
    ({ p with inventory := fun t =>
        if t = bt then u8incr (p.inventory t) else p.inventory t },
      world_set_block w x y z BLOCK_AIR)
  else (p, w)

/-- player.c `player_place_block`: cast the same 5-unit ray; on a hit,
the target cell is the floor of the hit point displaced half a cell along
the struck face's normal; if that cell is valid and the inventory count
for the chosen block type is positive, set the cell to that type and
decrement the count. -/
def player_place_block (p : Player) (w : World) (dir : Vec3)
    (block_type : ℕ) (fuel : ℕ) : Player × World :=
  let hit := cast_ray w p.position dir 5 fuel
  if hit.hit then
    let x := ⌊hit.position.x + hit.normal.x * (1/2)⌋
    let y := ⌊hit.position.y + hit.normal.y * (1/2)⌋
    let z := ⌊hit.position.z + hit.normal.z * (1/2)⌋
    if world_is_valid_position w x y z then
      if 0 < p.inventory block_type then
        ({ p with inventory := fun t =>
            if t = block_type then u8decr (p.inventory t) else p.inventory t },
          world_set_block w x y z block_type)
      else (p, w)
    else (p, w)
  else (p, w)

/-- player.c `player_select_slot`: only slots 1..9 are accepted; any
other argument leaves the selection unchanged. -/
def player_select_slot (p : Player) (slot : ℤ) : Player :=
  if 1 ≤ slot ∧ slot ≤ 9 then { p with selected_slot := slot } else p

/-- player.c `player_get_selected_block`: returns the selected slot
number itself, converted to the `uint8_t` return type. -/
def player_get_selected_block (p : Player) : ℕ :=
  (p.selected_slot % 256).toNat

/-- The place invocation of the game loop (main.c):
`player_place_block(game->player, game->world, game->player->selected_slot)`,
the `int` slot converted to the `uint8_t` parameter type. -/
def game_place_action (p : Player) (w : World) (dir : Vec3) (fuel : ℕ) :
    Player × World :=
  player_place_block p w dir (p.selected_slot % 256).toNat fuel

/-- Sample world used in concrete witnesses: a 2x2x2 grid whose only
non-air cell is stone (id 3) at coordinate (0,0,0). -/
def sampleWorld2 : World :=
  { width := 2
    height := 2
    depth := 2
    blocks := fun z y x => if z = 0 ∧ y = 0 ∧ x = 0 then 3 else 0
    time_of_day := 1/2
    sky_brightness := 1 }

/-- Player used in concrete witnesses: standing at (1.5, 1.5, 1.5),
looking along +X (pitch 0, yaw 0), slot 3 selected, holding 64 stone. -/
def samplePlayer : Player :=
  { position := ⟨3/2, 3/2, 3/2⟩
    rotation := (0, 0)
    selected_slot := 3
    inventory := fun b => if b = 3 then 64 else 0 }

/-- Sample world for the C2 counterexample: a 4x4x4 grid whose only
non-air cell is stone at (x,y,z) = (2,1,1); nothing lies behind it along
the +X ray from the sample player. -/
def sampleWorld4 : World :=
  { width := 4
    height := 4
    depth := 4
    blocks := fun z y x => if z = 1 ∧ y = 1 ∧ x = 2 then 3 else 0
    time_of_day := 1/2
    sky_brightness := 1 }

/-- Sample world for the C2 amended witness: stone at (2,1,1) and at
(3,1,1), so that after breaking the front block the ray hits the block
behind it and the place target is the broken cell. -/
def sampleWorld4b : World :=
  { width := 4
    height := 4
    depth := 4
    blocks := fun z y x => if z = 1 ∧ y = 1 ∧ (x = 2 ∨ x = 3) then 3 else 0
    time_of_day := 1/2
    sky_brightness := 1 }

/-! ### Binary persistence (world.c world_save / world_load)

The file is embedded at the granularity the source writes and reads it:
one item per `fwrite`/`fread` unit — a 4-byte int, a single block byte
(rows of `width` bytes are `width` byte items), or a 4-byte float.  A
read fails exactly when the next item is missing or of the wrong kind,
mirroring the source's check of every `fread` return value.
-/

inductive FileItem where
  | i32 (n : ℤ)
  | u8 (b : ℕ)
  | f32 (q : ℚ)
deriving DecidableEq, Repr

/-- The 32-bit wraparound of the 4-byte `int` fields `fwrite` stores. -/
def i32wrap (n : ℤ) : ℤ := (n + 2 ^ 31) % 2 ^ 32 - 2 ^ 31

/-- The block rows `world_save` writes: one row of `width` bytes per
(z, y), z outermost, each byte the `uint8_t` cell value. -/
def world_save_rows (w : World) : List (List ℕ) :=
  ((List.range w.depth.toNat).map (fun (z : ℕ) =>
    (List.range w.height.toNat).map (fun (y : ℕ) =>
      (List.range w.width.toNat).map (fun (x : ℕ) =>
        w.blocks (z : ℤ) (y : ℤ) (x : ℤ) % 256)))).flatten

/-- world.c `world_save`: three int32 dimensions, the depth x height
rows of width block bytes in (z, y, x) row-major order, then
`time_of_day` and `sky_brightness` as float32. -/
def world_save (w : World) : List FileItem :=
  FileItem.i32 (i32wrap w.width) :: FileItem.i32 (i32wrap w.height) ::
    FileItem.i32 (i32wrap w.depth) ::
    (((world_save_rows w).map (fun r => r.map FileItem.u8)).flatten ++
      [FileItem.f32 w.time_of_day, FileItem.f32 w.sky_brightness])

/-- One `fread` of a 4-byte int; fails unless the next item is one. -/
def readI32 : List FileItem → Option (ℤ × List FileItem)
  | FileItem.i32 n :: rest => some (n, rest)
  | _ => none

/-- One `fread` of a 4-byte float; fails unless the next item is one. -/
def readF32 : List FileItem → Option (ℚ × List FileItem)
  | FileItem.f32 q :: rest => some (q, rest)
  | _ => none

/-- One `fread` of `n` block bytes (a row); fails, as the source's
`!= world->width` check does, unless `n` byte items are available. -/
def readBytes : ℕ → List FileItem → Option (List ℕ × List FileItem)
  | 0, items => some ([], items)
  | n + 1, FileItem.u8 b :: rest =>
      match readBytes n rest with
      | some (bs, rest') => some (b :: bs, rest')
      | none => none
  | _ + 1, _ => none

/-- The nested z/y row-reading loops of `world_load`, flattened to
`depth * height` consecutive row reads; any failing row read fails the
whole load. -/
def readRows : ℕ → ℕ → List FileItem → Option (List (List ℕ) × List FileItem)
  | 0, _, items => some ([], items)
  | n + 1, len, items =>
      match readBytes len items with
      | some (row, rest) =>
          match readRows n len rest with
          | some (rows, rest') => some (row :: rows, rest')
          | none => none
      | none => none

/-- world.c `world_load`: read the three dimensions, then the block
rows, then the two floats; the world is discarded and NULL returned if
any read fails.  The C `for` loops over `depth`/`height` and the row
width are embedded through `Int.toNat` (zero iterations for negative
counts); the rebuilt grid function is meaningful on in-bounds cells,
which are exactly the cells the reads populate. -/
def world_load (items : List FileItem) : Option World :=
  match readI32 items with
  | none => none
  | some (width, r1) =>
    match readI32 r1 with
    | none => none
    | some (height, r2) =>
      match readI32 r2 with
      | none => none
      | some (depth, r3) =>
        match readRows (depth.toNat * height.toNat) width.toNat r3 with
        | none => none
        | some (rows, r4) =>
          match readF32 r4 with
          | none => none
          | some (tod, r5) =>
            match readF32 r5 with
            | none => none
            | some (sky, _) =>
              some { width := width, height := height, depth := depth,
                     blocks := fun z y x =>
                       (rows.getD (z.toNat * height.toNat + y.toNat) []).getD
                         x.toNat 0,
                     time_of_day := tod, sky_brightness := sky }

/-- The hypotheses of claim C4: positive dimensions that fit an int32
and block ids that fit one byte. -/
def WorldWF (w : World) : Prop :=
  0 < w.width ∧ 0 < w.height ∧ 0 < w.depth ∧
    w.width < 2 ^ 31 ∧ w.height < 2 ^ 31 ∧ w.depth < 2 ^ 31 ∧
    ∀ x y z : ℤ, 0 ≤ x → x < w.width → 0 ≤ y → y < w.height →
      0 ≤ z → z < w.depth → w.blocks z y x < 256

/-- Observational equality of a loaded world with the saved one: equal
dimensions, equal lighting scalars, and equal block ids at every
in-bounds cell. -/
def WorldEquiv (wl w : World) : Prop :=
  wl.width = w.width ∧ wl.height = w.height ∧ wl.depth = w.depth ∧
    wl.time_of_day = w.time_of_day ∧ wl.sky_brightness = w.sky_brightness ∧
    ∀ x y z : ℤ, 0 ≤ x → x < w.width → 0 ≤ y → y < w.height →
      0 ≤ z → z < w.depth → wl.blocks z y x = w.blocks z y x

/-- Specification-side description of the fixed file format for claim
C7: a byte sequence from which every required read succeeds — three
int32 dimensions, `depth.toNat * height.toNat` rows of `width.toNat`
block bytes, the two floats, and arbitrary trailing content (the source
never checks for end of file after the final read). -/
def LoadFormatOK (items : List FileItem) : Prop :=
  ∃ (wd ht dp : ℤ) (rows : List (List ℕ)) (t s : ℚ) (rest : List FileItem),
    items = FileItem.i32 wd :: FileItem.i32 ht :: FileItem.i32 dp ::
        ((rows.map (fun r => r.map FileItem.u8)).flatten ++
          FileItem.f32 t :: FileItem.f32 s :: rest) ∧
      rows.length = dp.toNat * ht.toNat ∧ ∀ r ∈ rows, r.length = wd.toNat

/-! ### Claim C6 -/

/-- C6: for every grid and every coordinate outside
[0,W) x [0,H) x [0,D), `world_get_block` returns the air id 0 and
`world_is_solid` returns false; both queries are total, never an error. -/
theorem c6_out_of_bounds_queries (w : World) (x y z : ℤ)
    (h : ¬(0 ≤ x ∧ x < w.width ∧ 0 ≤ y ∧ y < w.height ∧ 0 ≤ z ∧ z < w.depth)) :
    world_get_block w x y z = BLOCK_AIR ∧ world_is_solid w x y z = false := by
  have hv : world_is_valid_position w x y z = false := by
    simp [world_is_valid_position, h]
  constructor
  · simp [world_get_block, hv]
  · simp [world_is_solid, hv]

/-- Witness for C6 at the concrete out-of-bounds coordinate (-1, 0, 5) of
the 2x2x2 sample world. -/
theorem c6_out_of_bounds_queries_witness :
    world_get_block sampleWorld2 (-1) 0 5 = BLOCK_AIR ∧
      world_is_solid sampleWorld2 (-1) 0 5 = false :=
  c6_out_of_bounds_queries sampleWorld2 (-1) 0 5 (by decide)

/-! ### Claim C1 -/

/-- C1 counterexample: on the 2x2x2 grid whose only solid cell is
(0,0,0), the ray from (0.5, 0.5, 5) in direction (0,0,-1) with max
distance 10 does NOT return hit = true: the origin lies outside the grid,
and the first DDA step lands in cell (0,0,4), which is out of bounds, so
the traversal terminates with a miss. -/
theorem c1_counterexample :
    (cast_ray sampleWorld2 ⟨1/2, 1/2, 5⟩ ⟨0, 0, -1⟩ 10 8).hit = false := by
  norm_num [cast_ray, cast_ray_loop, axis_setup, ddaStep, chooseAxis, t_infinity,
    world_get_block, world_is_valid_position, sampleWorld2, Rat.floor, missRayHit]

/-- C1 amended: the same query returns a miss, with hit = false and the
reported distance equal to the requested max distance 10 (the
zero-initialised miss result of `cast_ray`). -/
theorem c1_amended_miss :
    (cast_ray sampleWorld2 ⟨1/2, 1/2, 5⟩ ⟨0, 0, -1⟩ 10 8).hit = false ∧
      (cast_ray sampleWorld2 ⟨1/2, 1/2, 5⟩ ⟨0, 0, -1⟩ 10 8).distance = 10 := by
  constructor <;>
    norm_num [cast_ray, cast_ray_loop, axis_setup, ddaStep, chooseAxis, t_infinity,
      world_get_block, world_is_valid_position, sampleWorld2, Rat.floor, missRayHit]

/-! ### Claim C3 -/

/-- C3 counterexample: with t_max values (1, 1, 2) — an X/Y tie that is
strictly minimal — the DDA picks the Y axis, not X, and with all steps
positive one loop iteration reports face 3 (a -Y face), not an X face. -/
theorem c3_counterexample :
    chooseAxis 1 1 2 = Axis.y ∧
      (ddaStep 1 1 1 1 1 1 ⟨1, 1, 2, 0, 0, 0⟩).2.2 = 3 := by
  constructor <;> norm_num [chooseAxis, ddaStep]

/-- C3 amended: every DDA iteration steps the axis whose t_max attains
the minimum of the three, but ties are broken toward the LATER axis: a
strict winner is stepped, an X/Y tie steps Y (or Z if Z is no larger),
a Y/Z tie steps Z, a triple tie steps Z.  Moreover each iteration of
the loop reports a face belonging to the chosen axis, accumulates that
axis's t_max as the new distance, and advances exactly the chosen
axis's cell coordinate by its step. -/
theorem c3_amended_axis_selection (tmx tmy tmz : ℚ) :
    axisT (chooseAxis tmx tmy tmz) tmx tmy tmz = min tmx (min tmy tmz) ∧
      chooseAxis tmx tmx tmz = (if tmx < tmz then Axis.y else Axis.z) ∧
      chooseAxis tmx tmy tmy = (if tmx < tmy then Axis.x else Axis.z) ∧
      chooseAxis tmx tmx tmx = Axis.z ∧
      ∀ (sx sy sz : ℤ) (tdx tdy tdz : ℚ) (st : DDAState),
        faceAxis (ddaStep sx sy sz tdx tdy tdz st).2.2 =
            chooseAxis st.tmx st.tmy st.tmz ∧
          (ddaStep sx sy sz tdx tdy tdz st).2.1 =
            axisT (chooseAxis st.tmx st.tmy st.tmz) st.tmx st.tmy st.tmz ∧
          (ddaStep sx sy sz tdx tdy tdz st).1.mx =
            st.mx + (if chooseAxis st.tmx st.tmy st.tmz = Axis.x then sx else 0) ∧
          (ddaStep sx sy sz tdx tdy tdz st).1.my =
            st.my + (if chooseAxis st.tmx st.tmy st.tmz = Axis.y then sy else 0) ∧
          (ddaStep sx sy sz tdx tdy tdz st).1.mz =
            st.mz + (if chooseAxis st.tmx st.tmy st.tmz = Axis.z then sz else 0) := by
  refine ⟨?_, ?_, ?_, ?_, ?_⟩
  · simp only [chooseAxis]
    split_ifs with h1 h2
    · simp only [axisT]
      rw [eq_comm, min_eq_left (le_min (le_of_lt h1.1) (le_of_lt h1.2))]
    · push_neg at h1
      have hyx : tmy ≤ tmx := by
        by_contra hc
        push_neg at hc
        exact absurd (h1 hc) (by linarith)
      simp only [axisT]
      rw [eq_comm, min_eq_left (le_of_lt h2)]
      exact min_eq_right hyx
    · push_neg at h1
      push_neg at h2
      have hzx : tmz ≤ tmx := by
        by_contra hc
        push_neg at hc
        have hxy : tmx < tmy := lt_of_lt_of_le hc h2
        exact absurd (h1 hxy) (by linarith)
      simp only [axisT]
      rw [eq_comm, min_eq_right h2, min_eq_right hzx]
  · simp [chooseAxis, lt_irrefl]
  · by_cases h : tmx < tmy <;> simp [chooseAxis, lt_irrefl, h]
  · simp [chooseAxis, lt_irrefl]
  · intro sx sy sz tdx tdy tdz st
    rcases h : chooseAxis st.tmx st.tmy st.tmz <;>
      by_cases hx : 0 < sx <;> by_cases hy : 0 < sy <;> by_cases hz : 0 < sz <;>
        simp [ddaStep, h, faceAxis, axisT, hx, hy, hz]

/-! ### Claim C5 -/

/-- Folding a conditional multiplication over a list multiplies the seed
by the factor once per element satisfying the condition. -/
theorem foldl_cond_mul_pow (p : ℕ → Prop) [DecidablePred p] (q : ℚ) :
    ∀ (l : List ℕ) (b : ℚ),
      l.foldl (fun br i => if p i then br * q else br) b =
        b * q ^ (l.filter (fun i => decide (p i))).length := by
  intro l
  induction l with
  | nil => intro b; simp
  | cons a t ih =>
    intro b
    by_cases h : p a <;>
      simp [h, ih, pow_succ] <;> ring

/-- The clamp of any value into [lo, hi] lies in [lo, hi] when lo ≤ hi. -/
theorem clamp_mem_Icc (v lo hi : ℚ) (h : lo ≤ hi) :
    lo ≤ clamp v lo hi ∧ clamp v lo hi ≤ hi := by
  unfold clamp
  split_ifs <;> constructor <;> linarith

/-- C5: at every in-bounds coordinate, `world_get_brightness` returns the
sky brightness multiplied by 0.7 once per cell strictly above the
coordinate whose block is neither air nor water, clamped to [0.2, 1.0];
in particular the result always lies in [0.2, 1.0]. -/
theorem c5_brightness_occlusion (w : World) (x y z : ℤ)
    (h : world_is_valid_position w x y z = true) :
    world_get_brightness w x y z =
        clamp (w.sky_brightness * (7/10) ^ occlusion_count w x y z) (1/5) 1 ∧
      1/5 ≤ world_get_brightness w x y z ∧ world_get_brightness w x y z ≤ 1 := by
  have hb : world_is_valid_position w x y z = true := h
  simp only [world_is_valid_position, decide_eq_true_eq] at hb
  have hfold :
      (List.range (w.depth - (z + 1)).toNat).foldl
          (fun br (i : ℕ) =>
            if world_is_valid_position w x y (z + 1 + (i : ℤ)) = true then
              if w.blocks (z + 1 + (i : ℤ)) y x ≠ BLOCK_AIR ∧
                  w.blocks (z + 1 + (i : ℤ)) y x ≠ BLOCK_WATER then
                br * (7/10)
              else br
            else br)
          w.sky_brightness =
        w.sky_brightness * (7/10) ^ occlusion_count w x y z := by
    rw [List.foldl_ext
      (g := fun br (i : ℕ) =>
        if w.blocks (z + 1 + (i : ℤ)) y x ≠ BLOCK_AIR ∧
            w.blocks (z + 1 + (i : ℤ)) y x ≠ BLOCK_WATER then
          br * (7/10)
        else br)]
    · rw [foldl_cond_mul_pow
        (fun i => w.blocks (z + 1 + (i : ℤ)) y x ≠ BLOCK_AIR ∧
          w.blocks (z + 1 + (i : ℤ)) y x ≠ BLOCK_WATER) (7/10)]
      simp [occlusion_count]
    · intro br i hi
      have hi' : (i : ℤ) < w.depth - (z + 1) := by
        rw [List.mem_range] at hi
        exact Int.lt_toNat.mp hi
      have hvalid : world_is_valid_position w x y (z + 1 + (i : ℤ)) = true := by
        simp only [world_is_valid_position, decide_eq_true_eq]
        refine ⟨hb.1, hb.2.1, hb.2.2.1, hb.2.2.2.1, ?_, ?_⟩ <;> omega
      simp only [hvalid, if_true]
  have hmain : world_get_brightness w x y z =
      clamp (w.sky_brightness * (7/10) ^ occlusion_count w x y z) (1/5) 1 := by
    simp only [world_get_brightness, h, if_true]
    rw [hfold]
  have hmem := clamp_mem_Icc
    (w.sky_brightness * (7/10) ^ occlusion_count w x y z) (1/5) 1 (by norm_num)
  exact ⟨hmain, hmain ▸ hmem.1, hmain ▸ hmem.2⟩

/-- Witness for C5 at the in-bounds coordinate (0,0,0) of the 2x2x2
sample world. -/
theorem c5_brightness_occlusion_witness :
    world_is_valid_position sampleWorld2 0 0 0 = true ∧
      (world_get_brightness sampleWorld2 0 0 0 =
          clamp (sampleWorld2.sky_brightness *
            (7/10) ^ occlusion_count sampleWorld2 0 0 0) (1/5) 1 ∧
        1/5 ≤ world_get_brightness sampleWorld2 0 0 0 ∧
        world_get_brightness sampleWorld2 0 0 0 ≤ 1) :=
  ⟨by decide, c5_brightness_occlusion sampleWorld2 0 0 0 (by decide)⟩

/-! ### Claim C8 -/

theorem twoPi_pos : (0 : ℚ) < twoPi := by
  norm_num [twoPi]

theorem yawWrapDown_lt (y : ℚ) : yawWrapDown y < twoPi := by
  induction y using yawWrapDown.induct with
  | case1 y h ih =>
    rw [yawWrapDown, dif_pos h]
    exact ih
  | case2 y h =>
    rw [yawWrapDown, dif_neg h]
    exact not_le.mp h

theorem yawWrapDown_nonneg (y : ℚ) (hy : 0 ≤ y) : 0 ≤ yawWrapDown y := by
  induction y using yawWrapDown.induct with
  | case1 y h ih =>
    rw [yawWrapDown, dif_pos h]
    exact ih (by linarith)
  | case2 y h =>
    rw [yawWrapDown, dif_neg h]
    exact hy

theorem yawWrapUp_nonneg (y : ℚ) : 0 ≤ yawWrapUp y := by
  induction y using yawWrapUp.induct with
  | case1 y h ih =>
    rw [yawWrapUp, dif_pos h]
    exact ih
  | case2 y h =>
    rw [yawWrapUp, dif_neg h]
    exact not_lt.mp h

theorem yawWrapUp_lt (y : ℚ) (hy : y < twoPi) : yawWrapUp y < twoPi := by
  induction y using yawWrapUp.induct with
  | case1 y h ih =>
    rw [yawWrapUp, dif_pos h]
    exact ih (by linarith [twoPi_pos])
  | case2 y h =>
    rw [yawWrapUp, dif_neg h]
    exact hy

theorem player_rotate_inv (p : Player) (dp dy : ℚ) :
    RotationInv (player_rotate p dp dy) := by
  unfold player_rotate RotationInv
  refine ⟨?_, ?_, ?_, ?_⟩
  · simp only
    split_ifs <;> linarith
  · simp only
    split_ifs <;> linarith
  · exact yawWrapUp_nonneg _
  · exact yawWrapUp_lt _ (yawWrapDown_lt _)

/-- C8: starting from any rotation with pitch in [-1.5, 1.5] and yaw in
[0, 2 pi), every finite sequence of `player_rotate` calls with arbitrary
deltas keeps the pitch in [-1.5, 1.5] (saturating at the bounds) and the
yaw in [0, 2 pi); as the sequence is arbitrary, the invariant holds after
each individual call. -/
theorem c8_rotation_bounds (p : Player) (ds : List (ℚ × ℚ))
    (h : RotationInv p) : RotationInv (applyRotations p ds) := by
  induction ds generalizing p with
  | nil => exact h
  | cons d t ih =>
    simp only [applyRotations, List.foldl_cons]
    exact ih (player_rotate p d.1 d.2) (player_rotate_inv p d.1 d.2)

/-- Witness for C8: the sample player's rotation satisfies the invariant
and a concrete two-call sequence preserves it. -/
theorem c8_rotation_bounds_witness :
    RotationInv samplePlayer ∧
      RotationInv (applyRotations samplePlayer [(1, 1), (-4, -7)]) :=
  ⟨by constructor <;> norm_num [samplePlayer, twoPi],
    c8_rotation_bounds samplePlayer [(1, 1), (-4, -7)]
      (by constructor <;> norm_num [samplePlayer, twoPi])⟩

/-! ### Claim C9 -/

/-- C9: the selected slot number is used directly as the block-type id.
`player_select_slot` accepts a slot in 1..9 and ignores any other value;
`player_get_selected_block` returns the slot integer itself (through its
`uint8_t` return type, the identity on 1..9); and the place action the
game loop invokes passes that very slot number to `player_place_block`
as the block id, with no mapping table in between. -/
theorem c9_slot_is_block_id (p : Player) (s t : ℤ)
    (hs : 1 ≤ s ∧ s ≤ 9) (ht : ¬(1 ≤ t ∧ t ≤ 9)) :
    (player_select_slot p s).selected_slot = s ∧
      (player_select_slot p t).selected_slot = p.selected_slot ∧
      player_get_selected_block (player_select_slot p s) = s.toNat ∧
      ∀ (w : World) (dir : Vec3) (fuel : ℕ),
        game_place_action (player_select_slot p s) w dir fuel =
          player_place_block (player_select_slot p s) w dir s.toNat fuel := by
  have hsel : (player_select_slot p s).selected_slot = s := by
    simp [player_select_slot, hs]
  have hmod : (s % 256).toNat = s.toNat := by omega
  refine ⟨hsel, ?_, ?_, ?_⟩
  · simp [player_select_slot, ht]
  · rw [player_get_selected_block, hsel, hmod]
  · intro w dir fuel
    rw [game_place_action, hsel, hmod]

/-- Witness for C9 with slot 5 accepted and slot 12 rejected on the
sample player. -/
theorem c9_slot_is_block_id_witness :
    ((1 : ℤ) ≤ 5 ∧ (5 : ℤ) ≤ 9) ∧ ¬((1 : ℤ) ≤ 12 ∧ (12 : ℤ) ≤ 9) ∧
      ((player_select_slot samplePlayer 5).selected_slot = 5 ∧
        (player_select_slot samplePlayer 12).selected_slot =
          samplePlayer.selected_slot ∧
        player_get_selected_block (player_select_slot samplePlayer 5) =
          (5 : ℤ).toNat ∧
        ∀ (w : World) (dir : Vec3) (fuel : ℕ),
          game_place_action (player_select_slot samplePlayer 5) w dir fuel =
            player_place_block (player_select_slot samplePlayer 5) w dir
              (5 : ℤ).toNat fuel) :=
  ⟨by decide, by decide,
    c9_slot_is_block_id samplePlayer 5 12 (by decide) (by decide)⟩

/-! ### Claim C10 -/

theorem u8incr_iterate (n : ℕ) : ∀ c : ℕ, c < 256 →
    u8incr^[n] c = (c + n) % 256 := by
  induction n with
  | zero =>
    intro c h
    simp [Nat.mod_eq_of_lt h]
  | succ n ih =>
    intro c h
    rw [Function.iterate_succ_apply, ih (u8incr c) (by simp only [u8incr]; omega)]
    simp only [u8incr]
    omega

/-- C10: inventory counts are 8-bit unsigned values.  The break-action
increment `u8incr`, the give-action addition `u8add` and the place-action
decrement `u8decr` all act modulo 256 and keep counts below 256;
incrementing a count of 255 wraps it to 0; iterating the break increment
256 times restores the original count; and the place decrement undoes
one break increment. -/
theorem c10_inventory_u8 (c : ℕ) (h : c < 256) :
    u8incr 255 = 0 ∧
      u8incr^[256] c = c ∧
      u8incr c < 256 ∧
      u8decr c < 256 ∧
      (∀ a : ℤ, u8add c a < 256) ∧
      u8decr (u8incr c) = c ∧
      ∀ a : ℤ, u8add (u8add c a) (-a) = c := by
  refine ⟨by norm_num [u8incr], ?_, ?_, ?_, ?_, ?_, ?_⟩
  · rw [u8incr_iterate 256 c h]
    omega
  · simp only [u8incr]; omega
  · simp only [u8decr]; omega
  · intro a; simp only [u8add]; omega
  · simp only [u8incr, u8decr]; omega
  · intro a; simp only [u8add]; omega

/-- Witness for C10 at count 7 (and the wrap at 255 contained in the
conclusion). -/
theorem c10_inventory_u8_witness :
    7 < 256 ∧
      (u8incr 255 = 0 ∧
        u8incr^[256] 7 = 7 ∧
        u8incr 7 < 256 ∧
        u8decr 7 < 256 ∧
        (∀ a : ℤ, u8add 7 a < 256) ∧
        u8decr (u8incr 7) = 7 ∧
        ∀ a : ℤ, u8add (u8add 7 a) (-a) = 7) :=
  ⟨by norm_num, c10_inventory_u8 7 (by norm_num)⟩

/-! ### Claim C2 -/

theorem world_set_block_width (w : World) (x y z : ℤ) (ty : ℕ) :
    (world_set_block w x y z ty).width = w.width := by
  unfold world_set_block
  split <;> rfl

theorem world_set_block_height (w : World) (x y z : ℤ) (ty : ℕ) :
    (world_set_block w x y z ty).height = w.height := by
  unfold world_set_block
  split <;> rfl

theorem world_set_block_depth (w : World) (x y z : ℤ) (ty : ℕ) :
    (world_set_block w x y z ty).depth = w.depth := by
  unfold world_set_block
  split <;> rfl

theorem world_set_block_valid (w : World) (x y z : ℤ) (ty : ℕ) (a b c : ℤ) :
    world_is_valid_position (world_set_block w x y z ty) a b c =
      world_is_valid_position w a b c := by
  unfold world_is_valid_position
  rw [world_set_block_width, world_set_block_height, world_set_block_depth]

theorem world_set_block_blocks_same (w : World) (x y z : ℤ) (ty : ℕ)
    (h : world_is_valid_position w x y z = true) :
    (world_set_block w x y z ty).blocks z y x = ty % 256 := by
  unfold world_set_block
  rw [if_pos h]
  simp

theorem world_is_solid_valid (w : World) (x y z : ℤ)
    (h : world_is_solid w x y z = true) :
    world_is_valid_position w x y z = true := by
  cases hv : world_is_valid_position w x y z with
  | true => rfl
  | false => simp [world_is_solid, hv] at h

theorem world_is_solid_elim (w : World) (x y z : ℤ)
    (h : world_is_solid w x y z = true) :
    w.blocks z y x < MAX_BLOCK_TYPES ∧
      default_block_solid (w.blocks z y x) = true := by
  have hv := world_is_solid_valid w x y z h
  rw [world_is_solid, if_pos hv] at h
  by_cases hge : MAX_BLOCK_TYPES ≤ w.blocks z y x
  · rw [if_pos hge] at h
    exact absurd h (by simp)
  · rw [if_neg hge] at h
    exact ⟨by omega, h⟩

theorem world_get_block_of_valid (w : World) (x y z : ℤ)
    (h : world_is_valid_position w x y z = true) :
    world_get_block w x y z = w.blocks z y x := by
  rw [world_get_block, if_pos h]

/-- On a hit, `player_break_block` adds the id of the floored hit cell to
the inventory and sets that cell to air. -/
theorem break_char (p : Player) (w : World) (dir : Vec3) (fuel : ℕ)
    (cx cy cz : ℤ)
    (h : (cast_ray w p.position dir 5 fuel).hit = true)
    (hcx : cx = ⌊(cast_ray w p.position dir 5 fuel).position.x⌋)
    (hcy : cy = ⌊(cast_ray w p.position dir 5 fuel).position.y⌋)
    (hcz : cz = ⌊(cast_ray w p.position dir 5 fuel).position.z⌋) :
    player_break_block p w dir fuel =
      ({ p with inventory := fun t =>
          if t = world_get_block w cx cy cz then u8incr (p.inventory t)
          else p.inventory t },
        world_set_block w cx cy cz BLOCK_AIR) := by
  subst hcx hcy hcz
  simp [player_break_block, h]

/-- On a hit with a valid target cell and a positive inventory count,
`player_place_block` sets the target cell and decrements the count. -/
theorem place_char (p : Player) (w : World) (dir : Vec3) (bt fuel : ℕ)
    (tx ty tz : ℤ)
    (h : (cast_ray w p.position dir 5 fuel).hit = true)
    (htx : tx = ⌊(cast_ray w p.position dir 5 fuel).position.x +
      (cast_ray w p.position dir 5 fuel).normal.x * (1/2)⌋)
    (hty : ty = ⌊(cast_ray w p.position dir 5 fuel).position.y +
      (cast_ray w p.position dir 5 fuel).normal.y * (1/2)⌋)
    (htz : tz = ⌊(cast_ray w p.position dir 5 fuel).position.z +
      (cast_ray w p.position dir 5 fuel).normal.z * (1/2)⌋)
    (hvalid : world_is_valid_position w tx ty tz = true)
    (hinv : 0 < p.inventory bt) :
    player_place_block p w dir bt fuel =
      ({ p with inventory := fun t =>
          if t = bt then u8decr (p.inventory t) else p.inventory t },
        world_set_block w tx ty tz bt) := by
  subst htx hty htz
  simp only [one_div] at hvalid
  simp [player_place_block, h, hvalid, hinv]

/-- C2 amended: break-then-place is a round trip only under the extra
conditions the counterexample exposes.  If the interaction ray hits a
solid cell, the post-break ray hits again with the place target equal to
the broken cell, and the inventory count of the broken type was below
255, then placing that same type restores the count exactly and leaves
the cell solid again. -/
theorem c2_amended_break_then_place (p : Player) (w : World) (dir : Vec3)
    (fuel : ℕ) (cx cy cz : ℤ) (bt : ℕ)
    (h1 : (cast_ray w p.position dir 5 fuel).hit = true)
    (hcx : cx = ⌊(cast_ray w p.position dir 5 fuel).position.x⌋)
    (hcy : cy = ⌊(cast_ray w p.position dir 5 fuel).position.y⌋)
    (hcz : cz = ⌊(cast_ray w p.position dir 5 fuel).position.z⌋)
    (hsolid : world_is_solid w cx cy cz = true)
    (hbt : bt = world_get_block w cx cy cz)
    (hcnt : p.inventory bt < 255)
    (h2 : (cast_ray (player_break_block p w dir fuel).2 p.position dir 5
      fuel).hit = true)
    (htx : cx = ⌊(cast_ray (player_break_block p w dir fuel).2 p.position
        dir 5 fuel).position.x +
      (cast_ray (player_break_block p w dir fuel).2 p.position dir 5
        fuel).normal.x * (1/2)⌋)
    (hty : cy = ⌊(cast_ray (player_break_block p w dir fuel).2 p.position
        dir 5 fuel).position.y +
      (cast_ray (player_break_block p w dir fuel).2 p.position dir 5
        fuel).normal.y * (1/2)⌋)
    (htz : cz = ⌊(cast_ray (player_break_block p w dir fuel).2 p.position
        dir 5 fuel).position.z +
      (cast_ray (player_break_block p w dir fuel).2 p.position dir 5
        fuel).normal.z * (1/2)⌋) :
    (player_place_block (player_break_block p w dir fuel).1
        (player_break_block p w dir fuel).2 dir bt fuel).1.inventory bt =
      p.inventory bt ∧
    world_is_solid (player_place_block (player_break_block p w dir fuel).1
        (player_break_block p w dir fuel).2 dir bt fuel).2 cx cy cz =
      true := by
  subst hbt
  have hv := world_is_solid_valid w cx cy cz hsolid
  obtain ⟨hlt, hsol⟩ := world_is_solid_elim w cx cy cz hsolid
  have hbk := break_char p w dir fuel cx cy cz h1 hcx hcy hcz
  simp only [hbk] at h2 htx hty htz ⊢
  have hvalid1 : world_is_valid_position
      (world_set_block w cx cy cz BLOCK_AIR) cx cy cz = true := by
    rw [world_set_block_valid]
    exact hv
  have hinv1 : 0 < (if world_get_block w cx cy cz = world_get_block w cx cy cz
      then u8incr (p.inventory (world_get_block w cx cy cz))
      else p.inventory (world_get_block w cx cy cz)) := by
    rw [if_pos rfl]
    simp only [u8incr]
    omega
  have hpl := place_char
    { p with inventory := fun t =>
        if t = world_get_block w cx cy cz then u8incr (p.inventory t)
        else p.inventory t }
    (world_set_block w cx cy cz BLOCK_AIR) dir
    (world_get_block w cx cy cz) fuel cx cy cz
    h2 htx hty htz hvalid1 hinv1
  rw [hpl]
  have hbt_blocks : world_get_block w cx cy cz = w.blocks cz cy cx :=
    world_get_block_of_valid w cx cy cz hv
  constructor
  · simp [u8incr, u8decr]
    omega
  · have hvalid2 : world_is_valid_position
        (world_set_block (world_set_block w cx cy cz BLOCK_AIR) cx cy cz
          (world_get_block w cx cy cz)) cx cy cz = true := by
      rw [world_set_block_valid, world_set_block_valid]
      exact hv
    have hblocks : (world_set_block (world_set_block w cx cy cz BLOCK_AIR)
        cx cy cz (world_get_block w cx cy cz)).blocks cz cy cx =
        world_get_block w cx cy cz := by
      rw [world_set_block_blocks_same _ _ _ _ _ hvalid1]
      have hbtlt : world_get_block w cx cy cz < MAX_BLOCK_TYPES :=
        hbt_blocks ▸ hlt
      have h16 : MAX_BLOCK_TYPES = 16 := rfl
      omega
    rw [world_is_solid, if_pos hvalid2, hblocks]
    have hbtlt : world_get_block w cx cy cz < MAX_BLOCK_TYPES :=
      hbt_blocks ▸ hlt
    rw [if_neg (by omega)]
    rw [hbt_blocks]
    exact hsol

theorem stage_a1 : cast_ray sampleWorld4 samplePlayer.position ⟨1, 0, 0⟩ 5 4 =
    ⟨true, 3, 1/2, ⟨2, 3/2, 3/2⟩, ⟨-1, 0, 0⟩, 1, 3/5⟩ := by
  have hbr : world_get_brightness sampleWorld4 2 1 1 = 1 := by
    norm_num [world_get_brightness, world_is_valid_position, sampleWorld4,
      clamp, BLOCK_AIR, BLOCK_WATER, List.range_succ,
      (by decide : ((2:ℤ)).toNat = 2)]
  norm_num [cast_ray, cast_ray_loop, axis_setup, ddaStep, chooseAxis,
    t_infinity, hbr,
    (by decide : world_get_block sampleWorld4 2 1 1 = 3),
    (by decide : sampleWorld4.width = 4),
    (by decide : sampleWorld4.height = 4),
    (by decide : sampleWorld4.depth = 4), samplePlayer,
    face_normals, face_brightness, clamp, FOG_START, FOG_END,
    Rat.floor, vec3_add, vec3_mul, BLOCK_AIR]

theorem stage_a2 : cast_ray (world_set_block sampleWorld4 2 1 1 BLOCK_AIR)
    ⟨3/2, 3/2, 3/2⟩ ⟨1, 0, 0⟩ 5 4 = missRayHit 5 := by
  norm_num [cast_ray, cast_ray_loop, axis_setup, ddaStep, chooseAxis,
    t_infinity,
    (by decide : world_get_block (world_set_block sampleWorld4 2 1 1 0) 2 1 1 = 0),
    (by decide : world_get_block (world_set_block sampleWorld4 2 1 1 0) 3 1 1 = 0),
    (by decide : (world_set_block sampleWorld4 2 1 1 0).width = 4),
    (by decide : (world_set_block sampleWorld4 2 1 1 0).height = 4),
    (by decide : (world_set_block sampleWorld4 2 1 1 0).depth = 4),
    samplePlayer, Rat.floor, vec3_add, vec3_mul, BLOCK_AIR, missRayHit]

/-- C2 counterexample: on the single-block world, the interaction ray
hits the solid stone cell (2,1,1), yet breaking it and then immediately
performing the place action with the same type selected does NOT restore
anything: the post-break ray hits nothing within range, so the place is
a no-op, the stone count ends one higher than it began (65, not 64), and
the broken cell stays air. -/
theorem c2_counterexample :
    (cast_ray sampleWorld4 samplePlayer.position ⟨1, 0, 0⟩ 5 4).hit = true ∧
      world_is_solid sampleWorld4
        ⌊(cast_ray sampleWorld4 samplePlayer.position ⟨1, 0, 0⟩ 5 4).position.x⌋
        ⌊(cast_ray sampleWorld4 samplePlayer.position ⟨1, 0, 0⟩ 5 4).position.y⌋
        ⌊(cast_ray sampleWorld4 samplePlayer.position ⟨1, 0, 0⟩ 5 4).position.z⌋
        = true ∧
      samplePlayer.inventory 3 = 64 ∧
      (player_place_block
          (player_break_block samplePlayer sampleWorld4 ⟨1, 0, 0⟩ 4).1
          (player_break_block samplePlayer sampleWorld4 ⟨1, 0, 0⟩ 4).2
          ⟨1, 0, 0⟩ 3 4).1.inventory 3 = 65 ∧
      world_is_solid (player_place_block
          (player_break_block samplePlayer sampleWorld4 ⟨1, 0, 0⟩ 4).1
          (player_break_block samplePlayer sampleWorld4 ⟨1, 0, 0⟩ 4).2
          ⟨1, 0, 0⟩ 3 4).2 2 1 1 = false := by
  have hbrk := break_char samplePlayer sampleWorld4 ⟨1, 0, 0⟩ 4 2 1 1
    (by rw [stage_a1]) (by rw [stage_a1]; norm_num)
    (by rw [stage_a1]; norm_num) (by rw [stage_a1]; norm_num)
  refine ⟨by rw [stage_a1], ?_, by decide, ?_, ?_⟩
  · rw [stage_a1]
    norm_num [(by decide : world_is_solid sampleWorld4 2 1 1 = true)]
  · simp only [hbrk]
    simp [player_place_block, stage_a2, missRayHit, u8incr, samplePlayer,
      (by decide : world_get_block sampleWorld4 2 1 1 = 3)]
  · simp only [hbrk]
    simp [player_place_block, stage_a2, missRayHit, samplePlayer]
    decide

theorem stage_b1 : cast_ray sampleWorld4b samplePlayer.position ⟨1, 0, 0⟩ 5 4 =
    ⟨true, 3, 1/2, ⟨2, 3/2, 3/2⟩, ⟨-1, 0, 0⟩, 1, 3/5⟩ := by
  have hbr : world_get_brightness sampleWorld4b 2 1 1 = 1 := by
    norm_num [world_get_brightness, world_is_valid_position, sampleWorld4b,
      clamp, BLOCK_AIR, BLOCK_WATER, List.range_succ,
      (by decide : ((2:ℤ)).toNat = 2)]
  norm_num [cast_ray, cast_ray_loop, axis_setup, ddaStep, chooseAxis,
    t_infinity, hbr,
    (by decide : world_get_block sampleWorld4b 2 1 1 = 3),
    (by decide : sampleWorld4b.width = 4),
    (by decide : sampleWorld4b.height = 4),
    (by decide : sampleWorld4b.depth = 4), samplePlayer,
    face_normals, face_brightness, clamp, FOG_START, FOG_END,
    Rat.floor, vec3_add, vec3_mul, BLOCK_AIR]

theorem stage_b2 : cast_ray (world_set_block sampleWorld4b 2 1 1 BLOCK_AIR)
    samplePlayer.position ⟨1, 0, 0⟩ 5 4 =
    ⟨true, 3, 3/2, ⟨3, 3/2, 3/2⟩, ⟨-1, 0, 0⟩, 1, 3/5⟩ := by
  have hbr : world_get_brightness (world_set_block sampleWorld4b 2 1 1 0)
      3 1 1 = 1 := by
    norm_num [world_get_brightness, world_is_valid_position, world_set_block,
      sampleWorld4b, clamp, BLOCK_AIR, BLOCK_WATER, List.range_succ,
      (by decide : ((2:ℤ)).toNat = 2)]
  norm_num [cast_ray, cast_ray_loop, axis_setup, ddaStep, chooseAxis,
    t_infinity, hbr,
    (by decide : world_get_block (world_set_block sampleWorld4b 2 1 1 0) 2 1 1 = 0),
    (by decide : world_get_block (world_set_block sampleWorld4b 2 1 1 0) 3 1 1 = 3),
    (by decide : (world_set_block sampleWorld4b 2 1 1 0).width = 4),
    (by decide : (world_set_block sampleWorld4b 2 1 1 0).height = 4),
    (by decide : (world_set_block sampleWorld4b 2 1 1 0).depth = 4),
    samplePlayer, face_normals, face_brightness, clamp, FOG_START, FOG_END,
    Rat.floor, vec3_add, vec3_mul, BLOCK_AIR]

/-- Witness for the amended C2 on the two-block world: the hypotheses
hold concretely and break-then-place restores both the stone count and
the solidity of the broken cell. -/
theorem c2_amended_break_then_place_witness :
    (cast_ray sampleWorld4b samplePlayer.position ⟨1, 0, 0⟩ 5 4).hit = true ∧
      world_is_solid sampleWorld4b 2 1 1 = true ∧
      samplePlayer.inventory 3 < 255 ∧
      ((player_place_block
            (player_break_block samplePlayer sampleWorld4b ⟨1, 0, 0⟩ 4).1
            (player_break_block samplePlayer sampleWorld4b ⟨1, 0, 0⟩ 4).2
            ⟨1, 0, 0⟩ 3 4).1.inventory 3 = samplePlayer.inventory 3 ∧
        world_is_solid (player_place_block
            (player_break_block samplePlayer sampleWorld4b ⟨1, 0, 0⟩ 4).1
            (player_break_block samplePlayer sampleWorld4b ⟨1, 0, 0⟩ 4).2
            ⟨1, 0, 0⟩ 3 4).2 2 1 1 = true) := by
  have hbrkb := break_char samplePlayer sampleWorld4b ⟨1, 0, 0⟩ 4 2 1 1
    (by rw [stage_b1]) (by rw [stage_b1]; norm_num)
    (by rw [stage_b1]; norm_num) (by rw [stage_b1]; norm_num)
  refine ⟨by rw [stage_b1], by decide, by decide,
    c2_amended_break_then_place samplePlayer sampleWorld4b ⟨1, 0, 0⟩ 4 2 1 1 3
      (by rw [stage_b1]) (by rw [stage_b1]; norm_num)
      (by rw [stage_b1]; norm_num) (by rw [stage_b1]; norm_num)
      (by decide) (by decide) (by decide) ?_ ?_ ?_ ?_⟩
  · simp only [hbrkb, stage_b2]
  · simp only [hbrkb, stage_b2]
    norm_num
  · simp only [hbrkb, stage_b2]
    norm_num
  · simp only [hbrkb, stage_b2]
    norm_num

/-! ### Claims C4 and C7 -/

theorem readBytes_roundtrip (r : List ℕ) (rest : List FileItem) :
    readBytes r.length (r.map FileItem.u8 ++ rest) = some (r, rest) := by
  induction r with
  | nil => rfl
  | cons b bs ih =>
    simp [readBytes, ih]

theorem readRows_roundtrip (rows : List (List ℕ)) (len : ℕ)
    (rest : List FileItem) (h : ∀ r ∈ rows, r.length = len) :
    readRows rows.length len
      ((rows.map (fun r => r.map FileItem.u8)).flatten ++ rest) =
      some (rows, rest) := by
  induction rows with
  | nil => rfl
  | cons r rows ih =>
    have hr : r.length = len := h r (List.mem_cons_self r rows)
    have hrb : readBytes len (r.map FileItem.u8 ++
        ((rows.map (fun r => r.map FileItem.u8)).flatten ++ rest)) =
        some (r, (rows.map (fun r => r.map FileItem.u8)).flatten ++ rest) := by
      rw [← hr]
      exact readBytes_roundtrip r _
    simp only [List.length_cons, List.map_cons, List.flatten_cons,
      List.append_assoc, readRows, hrb]
    rw [ih (fun r hmem => h r (List.mem_cons_of_mem _ hmem))]

theorem readBytes_inv (n : ℕ) :
    ∀ (items : List FileItem) (bs : List ℕ) (rest : List FileItem),
      readBytes n items = some (bs, rest) →
      items = bs.map FileItem.u8 ++ rest ∧ bs.length = n := by
  induction n with
  | zero =>
    intro items bs rest h
    simp only [readBytes] at h
    cases h
    simp
  | succ n ih =>
    intro items bs rest h
    match items with
    | [] => simp [readBytes] at h
    | FileItem.i32 m :: tail => simp [readBytes] at h
    | FileItem.f32 q :: tail => simp [readBytes] at h
    | FileItem.u8 b :: tail =>
      simp only [readBytes] at h
      match hrec : readBytes n tail with
      | none => rw [hrec] at h; simp at h
      | some (bs', rest') =>
        rw [hrec] at h
        simp only [Option.some.injEq, Prod.mk.injEq] at h
        obtain ⟨rfl, rfl⟩ := h
        obtain ⟨htail, hlen⟩ := ih tail bs' rest' hrec
        subst htail
        simp [hlen]

theorem readRows_inv (n : ℕ) :
    ∀ (len : ℕ) (items : List FileItem) (rows : List (List ℕ))
      (rest : List FileItem),
      readRows n len items = some (rows, rest) →
      items = (rows.map (fun r => r.map FileItem.u8)).flatten ++ rest ∧
        rows.length = n ∧ ∀ r ∈ rows, r.length = len := by
  induction n with
  | zero =>
    intro len items rows rest h
    simp only [readRows] at h
    cases h
    simp
  | succ n ih =>
    intro len items rows rest h
    simp only [readRows] at h
    match hb : readBytes len items with
    | none => rw [hb] at h; simp at h
    | some (row, r1) =>
      rw [hb] at h
      dsimp only at h
      match hr : readRows n len r1 with
      | none => rw [hr] at h; simp at h
      | some (rows', rest') =>
        rw [hr] at h
        simp only [Option.some.injEq, Prod.mk.injEq] at h
        obtain ⟨rfl, rfl⟩ := h
        obtain ⟨hitems, hlen⟩ := readBytes_inv len items row r1 hb
        obtain ⟨hr1, hcount, hall⟩ := ih len r1 rows' rest' hr
        subst hitems hr1
        refine ⟨by simp, by simp [hcount], ?_⟩
        intro r hmem
        rcases List.mem_cons.mp hmem with hcase | hcase
        · subst hcase; exact hlen
        · exact hall r hcase

theorem flatten_length_const {α : Type} (L : List (List α)) (k : ℕ)
    (h : ∀ l ∈ L, l.length = k) : L.flatten.length = L.length * k := by
  induction L with
  | nil => simp
  | cons a L ih =>
    have ha : a.length = k := h a (List.mem_cons_self a L)
    have hL : L.flatten.length = L.length * k :=
      ih (fun l hl => h l (List.mem_cons_of_mem _ hl))
    simp [ha, hL, Nat.succ_mul, Nat.add_comm]

theorem flatten_getD_const {α : Type} (k : ℕ) (d : α) :
    ∀ (L : List (List α)) (i j : ℕ), (∀ l ∈ L, l.length = k) →
      i < L.length → j < k →
      L.flatten.getD (i * k + j) d = (L.getD i []).getD j d := by
  intro L
  induction L with
  | nil =>
    intro i j _ hi _
    simp at hi
  | cons a L ih =>
    intro i j h hi hj
    have ha : a.length = k := h a (List.mem_cons_self a L)
    cases i with
    | zero =>
      have hja : j < a.length := by omega
      simp only [List.flatten_cons, Nat.zero_mul, Nat.zero_add]
      simp [List.getD, List.getElem?_append, hja]
    | succ i =>
      have hidx : (i + 1) * k + j = a.length + (i * k + j) := by
        rw [ha]
        ring
      rw [List.flatten_cons, hidx]
      have happ : (a ++ L.flatten).getD (a.length + (i * k + j)) d =
          L.flatten.getD (i * k + j) d := by
        simp [List.getD, List.getElem?_append_right (Nat.le_add_right _ _)]
      rw [happ]
      have hi' : i < L.length := by simpa using hi
      rw [ih i j (fun l hl => h l (List.mem_cons_of_mem _ hl)) hi' hj]
      simp

theorem map_range_getD {α : Type} (n : ℕ) (f : ℕ → α) (i : ℕ) (hi : i < n)
    (d : α) : ((List.range n).map f).getD i d = f i := by
  simp [List.getD, List.getElem?_map, List.getElem?_range hi]

/-- C4: for every world whose dimensions and block ids fit the byte
format, `world_save` followed by `world_load` yields a world with the
same dimensions, an identical block grid at every in-bounds cell, and
identical `time_of_day` and `sky_brightness` values. -/
theorem c4_save_load_roundtrip (w : World) (h : WorldWF w) :
    ∃ wl, world_load (world_save w) = some wl ∧ WorldEquiv wl w := by
  obtain ⟨hW, hH, hD, hW2, hH2, hD2, hbytes⟩ := h
  have hwrapW : i32wrap w.width = w.width := by unfold i32wrap; omega
  have hwrapH : i32wrap w.height = w.height := by unfold i32wrap; omega
  have hwrapD : i32wrap w.depth = w.depth := by unfold i32wrap; omega
  have hrowlen : ∀ r ∈ world_save_rows w, r.length = w.width.toNat := by
    intro r hr
    unfold world_save_rows at hr
    rw [List.mem_flatten] at hr
    obtain ⟨l, hl, hrl⟩ := hr
    rw [List.mem_map] at hl
    obtain ⟨z, _, rfl⟩ := hl
    rw [List.mem_map] at hrl
    obtain ⟨y, _, rfl⟩ := hrl
    simp
  have hrowcount : (world_save_rows w).length =
      w.depth.toNat * w.height.toNat := by
    unfold world_save_rows
    rw [flatten_length_const _ w.height.toNat (by
      intro l hl
      rw [List.mem_map] at hl
      obtain ⟨z, _, rfl⟩ := hl
      simp)]
    simp
  have hread : readRows (w.depth.toNat * w.height.toNat) w.width.toNat
      (((world_save_rows w).map (fun r => r.map FileItem.u8)).flatten ++
        [FileItem.f32 w.time_of_day, FileItem.f32 w.sky_brightness]) =
      some (world_save_rows w,
        [FileItem.f32 w.time_of_day, FileItem.f32 w.sky_brightness]) := by
    rw [← hrowcount]
    exact readRows_roundtrip (world_save_rows w) w.width.toNat _ hrowlen
  have hload : world_load (world_save w) = some
      { width := w.width, height := w.height, depth := w.depth,
        blocks := fun z y x => ((world_save_rows w).getD
          (z.toNat * w.height.toNat + y.toNat) []).getD x.toNat 0,
        time_of_day := w.time_of_day, sky_brightness := w.sky_brightness } := by
    simp only [world_save, world_load, readI32, hwrapW, hwrapH, hwrapD, hread,
      readF32]
  refine ⟨_, hload, ?_⟩
  refine ⟨rfl, rfl, rfl, rfl, rfl, ?_⟩
  intro x y z hx0 hxW hy0 hyH hz0 hzD
  have hzt : z.toNat < w.depth.toNat := by omega
  have hyt : y.toNat < w.height.toNat := by omega
  have hxt : x.toNat < w.width.toNat := by omega
  show ((world_save_rows w).getD
      (z.toNat * w.height.toNat + y.toNat) []).getD x.toNat 0 =
    w.blocks z y x
  unfold world_save_rows
  rw [flatten_getD_const w.height.toNat [] _ z.toNat y.toNat (by
      intro l hl
      rw [List.mem_map] at hl
      obtain ⟨zz, _, rfl⟩ := hl
      simp)
    (by simpa using hzt) hyt]
  rw [map_range_getD _ _ _ hzt, map_range_getD _ _ _ hyt,
    map_range_getD _ _ _ hxt]
  rw [Int.toNat_of_nonneg hx0, Int.toNat_of_nonneg hy0,
    Int.toNat_of_nonneg hz0]
  exact Nat.mod_eq_of_lt (hbytes x y z hx0 hxW hy0 hyH hz0 hzD)

/-- Witness for C4: the 2x2x2 sample world round-trips through save and
load. -/
theorem c4_save_load_roundtrip_witness :
    WorldWF sampleWorld2 ∧
      ∃ wl, world_load (world_save sampleWorld2) = some wl ∧
        WorldEquiv wl sampleWorld2 := by
  have hwf : WorldWF sampleWorld2 := by
    refine ⟨by decide, by decide, by decide, by decide, by decide, by decide,
      ?_⟩
    intro x y z _ _ _ _ _ _
    unfold sampleWorld2
    dsimp only
    split <;> norm_num
  exact ⟨hwf, c4_save_load_roundtrip sampleWorld2 hwf⟩

theorem readI32_inv {items : List FileItem} {n : ℤ} {rest : List FileItem}
    (h : readI32 items = some (n, rest)) : items = FileItem.i32 n :: rest := by
  match items with
  | [] => simp [readI32] at h
  | FileItem.i32 m :: tail =>
    simp only [readI32, Option.some.injEq, Prod.mk.injEq] at h
    obtain ⟨rfl, rfl⟩ := h
    rfl
  | FileItem.u8 b :: tail => simp [readI32] at h
  | FileItem.f32 q :: tail => simp [readI32] at h

theorem readF32_inv {items : List FileItem} {q : ℚ} {rest : List FileItem}
    (h : readF32 items = some (q, rest)) : items = FileItem.f32 q :: rest := by
  match items with
  | [] => simp [readF32] at h
  | FileItem.i32 m :: tail => simp [readF32] at h
  | FileItem.u8 b :: tail => simp [readF32] at h
  | FileItem.f32 p :: tail =>
    simp only [readF32, Option.some.injEq, Prod.mk.injEq] at h
    obtain ⟨rfl, rfl⟩ := h
    rfl

/-- C7: `world_load` returns a world exactly when every read of the
fixed format succeeds — three int32 dimensions, the full block of
`depth * height` rows of `width` bytes, and the two trailing floats; on
any failing read it returns none, never a partial world. -/
theorem c7_load_none_unless_format (items : List FileItem) :
    (world_load items).isSome ↔ LoadFormatOK items := by
  constructor
  · intro h
    unfold world_load at h
    match h1 : readI32 items with
    | none => rw [h1] at h; simp at h
    | some (wd, r1) =>
      rw [h1] at h
      dsimp only at h
      match h2 : readI32 r1 with
      | none => rw [h2] at h; simp at h
      | some (ht, r2) =>
        rw [h2] at h
        dsimp only at h
        match h3 : readI32 r2 with
        | none => rw [h3] at h; simp at h
        | some (dp, r3) =>
          rw [h3] at h
          dsimp only at h
          match h4 : readRows (dp.toNat * ht.toNat) wd.toNat r3 with
          | none => rw [h4] at h; simp at h
          | some (rows, r4) =>
            rw [h4] at h
            dsimp only at h
            match h5 : readF32 r4 with
            | none => rw [h5] at h; simp at h
            | some (t, r5) =>
              rw [h5] at h
              dsimp only at h
              match h6 : readF32 r5 with
              | none => rw [h6] at h; simp at h
              | some (s, r6) =>
                obtain ⟨e4, ecount, elen⟩ := readRows_inv _ _ _ _ _ h4
                refine ⟨wd, ht, dp, rows, t, s, r6, ?_, ecount, elen⟩
                rw [readI32_inv h1, readI32_inv h2, readI32_inv h3, e4,
                  readF32_inv h5, readF32_inv h6]
  · rintro ⟨wd, ht, dp, rows, t, s, rest, rfl, hcount, hlen⟩
    have hrd : readRows (dp.toNat * ht.toNat) wd.toNat
        ((rows.map (fun r => r.map FileItem.u8)).flatten ++
          FileItem.f32 t :: FileItem.f32 s :: rest) =
        some (rows, FileItem.f32 t :: FileItem.f32 s :: rest) := by
      rw [← hcount]
      exact readRows_roundtrip rows wd.toNat _ hlen
    simp [world_load, readI32, hrd, readF32]

end VoxelExplorer
